import Mathlib

/-!
Shallow embedding of the bytematch deployment-provenance verifier
(`src/main.rs`).  Bytecode strings are modelled as `List Char`; the
metadata-stripping normalizer, the trace filter of `main`, the comparison
step and the panicking branches of `main` are each embedded as total Lean
functions, with panics made explicit as distinguished outcome values.
-/

namespace Bytematch

/-- The metadata delimiter hard-coded in `remove_metadata`: `"a264"`. -/
def metadataMarker : List Char := ['a', '2', '6', '4']

/-- Model of Rust `str::rfind` for a substring pattern: the index of the
last occurrence of `m` in `s`, or `none` when `m` does not occur.
An occurrence at `i` means `m` is a prefix of `s.drop i`. -/
def rfind : List Char → List Char → Option Nat
  | [], m => if m <+: ([] : List Char) then some 0 else none
  | c :: rest, m =>
    match rfind rest m with
    | some i => some (i + 1)
    | none => if m <+: (c :: rest) then some 0 else none

/-- Embedding of `remove_metadata` (src/main.rs lines 178-187): find the
last occurrence of `"a264"` and keep everything strictly before it
(`split_at(index).0`); if there is none, return the input unchanged. -/
def remove_metadata (bytecode : List Char) : List Char :=
  match rfind bytecode metadataMarker with
  | some index => bytecode.take index
  | none => bytecode

/-- Number of occurrences of `m` in `s` (indices where `m` starts). -/
def occCount (s m : List Char) : Nat :=
  ((List.range (s.length + 1)).filter (fun i => decide (m <+: s.drop i))).length

/-- A hex digit as produced by hex encoders: `0-9` or lowercase `a-f`
(uppercase also allowed, matching the claim's notion of hex text). -/
def isHexDigit (c : Char) : Bool :=
  c.isDigit || ('a' ≤ c && c ≤ 'f') || ('A' ≤ c && c ≤ 'F')

/-- Case-insensitive sameness of two hex strings: equal after lowering. -/
def sameHexCaseInsensitive (a b : List Char) : Bool :=
  a.map Char.toLower == b.map Char.toLower

/-- `ethers::types::ActionType` (the variants used by the filter). -/
inductive ActionType
  | Call
  | Create
  | Suicide
  | Reward
deriving DecidableEq

/-- `ethers::types::CreateResult`: gas used, deployed code, created address.
Addresses are modelled as `Nat` (20-byte values). -/
structure CreateResult where
  gas_used : Nat
  code : List Char
  address : Nat
deriving DecidableEq

/-- `ethers::types::Res`: the optional result attached to a trace entry. -/
inductive Res
  | Call (gas_used : Nat) (output : List Char)
  | Create (r : CreateResult)
  | NoneRes
deriving DecidableEq

/-- `ethers::types::Create`: a creation action, carrying the init bytecode
(hex text, as produced by `init.to_string()`). -/
structure CreateAction where
  fromAddr : Nat
  value : Nat
  gas : Nat
  init : List Char
deriving DecidableEq

/-- `ethers::types::Action`. -/
inductive Action
  | Call (callee : Nat) (input : List Char)
  | Create (c : CreateAction)
  | Suicide
  | Reward
deriving DecidableEq

/-- One `ethers::types::Trace` entry as used by `main`. -/
structure Trace where
  action : Action
  action_type : ActionType
  result : Option Res
deriving DecidableEq

/-- The filter closure of `main` (src/main.rs lines 94-116): keep entries
whose action type is `Create`, which have a result, and whose created
address equals the target contract. -/
def create_filter (contract : Nat) (trace_item : Trace) : Bool :=
  if trace_item.action_type ≠ ActionType.Create then false
  else if trace_item.result.isNone then false
  else
    match trace_item.result with
    | some (Res.Create r) => r.address == contract
    | _ => false

/-- `create_trace` of `main` (src/main.rs lines 92-117): the filtered list. -/
def create_trace (trace_result : List Trace) (contract : Nat) : List Trace :=
  trace_result.filter (create_filter contract)

/-- Outcome of the creation-locating step of `main`, with the panics of the
source made explicit: indexing `create_trace[0]` on an empty vector panics,
and a first entry whose action is not `Create` hits
`panic!("Could not find trace!")`. -/
inductive LocateOutcome
  | ok (trace_init : List Char)
  | panicIndexOutOfBounds
  | panicNoCreate
deriving DecidableEq

/-- `main` lines 119-155: after the filter, the code only prints a warning
when the count differs from 1 (this returns `true` in that case) and then
proceeds regardless. -/
def warning_printed (trace_result : List Trace) (contract : Nat) : Bool :=
  (create_trace trace_result contract).length ≠ 1

/-- `main` lines 150-155 including the unchecked `create_trace[0]` index:
take the first filtered entry (panicking when there is none), extract its
creation init code and normalize it. -/
def trace_init_step (trace_result : List Trace) (contract : Nat) : LocateOutcome :=
  match (create_trace trace_result contract).head? with
  | none => LocateOutcome.panicIndexOutOfBounds
  | some t =>
    match t.action with
    | Action.Create c => LocateOutcome.ok (remove_metadata c.init)
    | _ => LocateOutcome.panicNoCreate

/-- Outcome of the build-output decoding step of `main`, with the panic of
the source made explicit. -/
inductive CompileInitOutcome
  | ok (compile_init : List Char)
  | panicInvalidUtf8
deriving DecidableEq

/-- `main` lines 145-148: `str::from_utf8` on the build tool's stdout,
modelled by an `Option (List Char)` argument (`none` = invalid UTF-8).
On success the bytecode is normalized; on failure the code panics. -/
def compile_init_step (stdout_utf8 : Option (List Char)) : CompileInitOutcome :=
  match stdout_utf8 with
  | some v => CompileInitOutcome.ok (remove_metadata v)
  | none => CompileInitOutcome.panicInvalidUtf8

/-- The two classifications the comparison step of `main` can produce. -/
inductive VerificationResult
  | Match
  | Mismatch
deriving DecidableEq

/-- `main` lines 159-164: plain string equality of the two normalized
values decides the classification. -/
def compare_bytecode (compile_init trace_init : List Char) : VerificationResult :=
  if compile_init = trace_init then VerificationResult.Match
  else VerificationResult.Mismatch

/-- `main` lines 159-164: the text printed by the comparison step. -/
def compare_output (compile_init trace_init : List Char) : List Char :=
  if compile_init = trace_init then ("Matching contract deployment!".toList)
  else ("Did not match".toList)

/-- A concrete trace entry: a successful creation of address `5` with init
code `"6080"`. -/
def sampleCreateEntry : Trace :=
  Trace.mk (Action.Create (CreateAction.mk 1 0 21000 ("6080".toList)))
    ActionType.Create (some (Res.Create (CreateResult.mk 0 [] 5)))

/-- Soundness of the search: a returned index is an occurrence. -/
theorem rfind_some_occurs (s m : List Char) (i : Nat) (h : rfind s m = some i) :
    m <+: s.drop i := by
  induction s generalizing i with
  | nil =>
    by_cases hc : m <+: ([] : List Char)
    · rw [rfind, if_pos hc] at h
      injection h with h2
      subst h2
      simpa using hc
    · rw [rfind, if_neg hc] at h
      exact Option.noConfusion h
  | cons c rest ih =>
    cases hr : rfind rest m with
    | some k =>
      simp only [rfind, hr] at h
      injection h with h2
      subst h2
      simpa using ih k hr
    | none =>
      by_cases hc : m <+: (c :: rest)
      · simp only [rfind, hr, if_pos hc] at h
        injection h with h2
        subst h2
        simpa using hc
      · simp only [rfind, hr, if_neg hc] at h
        exact Option.noConfusion h

/-- Completeness of the search: on a `none` answer there is no occurrence. -/
theorem rfind_none_not_occurs (m : List Char) :
    ∀ (s : List Char), rfind s m = none → ∀ (i : Nat), ¬ m <+: s.drop i := by
  intro s
  induction s with
  | nil =>
    intro h i
    by_cases hc : m <+: ([] : List Char)
    · rw [rfind, if_pos hc] at h
      exact Option.noConfusion h
    · intro hcon
      rw [List.drop_nil] at hcon
      exact hc hcon
  | cons c rest ih =>
    intro h i
    cases hr : rfind rest m with
    | some k =>
      simp only [rfind, hr] at h
      exact Option.noConfusion h
    | none =>
      by_cases hc : m <+: (c :: rest)
      · simp only [rfind, hr, if_pos hc] at h
        exact Option.noConfusion h
      · cases i with
        | zero => simpa using hc
        | succ j => simpa using ih hr j

/-- Maximality of the search: it returns the last occurrence. -/
theorem rfind_max (m : List Char) (hm : m ≠ []) :
    ∀ (s : List Char) (i : Nat), rfind s m = some i →
      ∀ (j : Nat), m <+: s.drop j → j ≤ i := by
  intro s
  induction s with
  | nil =>
    intro i h j hj
    by_cases hc : m <+: ([] : List Char)
    · obtain ⟨t, ht⟩ := hc
      exact absurd (List.append_eq_nil.mp ht).1 hm
    · rw [rfind, if_neg hc] at h
      exact Option.noConfusion h
  | cons c rest ih =>
    intro i h j hj
    cases hr : rfind rest m with
    | some k =>
      simp only [rfind, hr] at h
      injection h with h2
      subst h2
      cases j with
      | zero => exact Nat.zero_le _
      | succ l =>
        have hl : l ≤ k := ih k hr l (by simpa using hj)
        omega
    | none =>
      by_cases hc : m <+: (c :: rest)
      · simp only [rfind, hr, if_pos hc] at h
        injection h with h2
        subst h2
        cases j with
        | zero => exact Nat.le_refl 0
        | succ l =>
          exact absurd (by simpa using hj) (rfind_none_not_occurs m rest hr l)
      · simp only [rfind, hr, if_neg hc] at h
        exact Option.noConfusion h

/-- An occurrence of a nonempty pattern fits inside the string. -/
theorem occurs_add_length_le (s m : List Char) (hm : m ≠ []) (i : Nat)
    (h : m <+: s.drop i) : i + m.length ≤ s.length := by
  have h1 : m.length ≤ s.length - i := by
    have hle := h.length_le
    simpa using hle
  have h2 : 0 < m.length := List.length_pos.mpr hm
  omega

/-- Having an occurrence at some index is the same as being a contiguous
substring. -/
theorem occurs_iff_substring (s m : List Char) :
    (∃ i, m <+: s.drop i) ↔ m <:+: s := by
  constructor
  · rintro ⟨i, t, ht⟩
    exact ⟨s.take i, t, by rw [List.append_assoc, ht, List.take_append_drop]⟩
  · rintro ⟨u, v, huv⟩
    refine ⟨u.length, v, ?_⟩
    rw [← huv, List.append_assoc, List.drop_left]

/-- An occurrence inside a front segment is an occurrence in the whole
string, and it ends within the segment. -/
theorem occurs_in_take (s m : List Char) (hm : m ≠ []) (n j : Nat)
    (h : m <+: (s.take n).drop j) : m <+: s.drop j ∧ j + m.length ≤ n := by
  rw [List.drop_take] at h
  constructor
  · have htp := List.take_prefix (n - j) (s.drop j)
    exact h.trans htp
  · have hlen := h.length_le
    rw [List.length_take] at hlen
    have h3 : m.length ≤ n - j := le_trans hlen (Nat.min_le_left _ _)
    have h2 : 0 < m.length := List.length_pos.mpr hm
    omega

/-- A list with two distinct members has at least two elements. -/
theorem two_le_length_of_mem_ne {l : List Nat} {a b : Nat} (ha : a ∈ l)
    (hb : b ∈ l) (hab : a ≠ b) : 2 ≤ l.length := by
  cases l with
  | nil => cases ha
  | cons x t =>
    cases t with
    | nil =>
      rw [List.mem_singleton] at ha hb
      exact absurd (ha.trans hb.symm) hab
    | cons y t2 =>
      simp only [List.length_cons]
      omega

/-- A marker occurrence strictly inside `marker ++ Y` is an occurrence in
`Y`: the marker cannot overlap a shifted copy of itself. -/
theorem marker_tail_occurrence (Y : List Char) (d : Nat) (hd : 1 ≤ d)
    (h : metadataMarker <+: (metadataMarker ++ Y).drop d) :
    metadataMarker <:+: Y := by
  rcases d with _ | _ | _ | _ | k
  · omega
  · exfalso
    obtain ⟨t, ht⟩ := h
    rw [show (metadataMarker ++ Y).drop 1 = '2' :: '6' :: '4' :: Y from rfl] at ht
    rw [show metadataMarker ++ t = 'a' :: '2' :: '6' :: '4' :: t from rfl] at ht
    injection ht with h1 _
    exact absurd h1 (by decide)
  · exfalso
    obtain ⟨t, ht⟩ := h
    rw [show (metadataMarker ++ Y).drop 2 = '6' :: '4' :: Y from rfl] at ht
    rw [show metadataMarker ++ t = 'a' :: '2' :: '6' :: '4' :: t from rfl] at ht
    injection ht with h1 _
    exact absurd h1 (by decide)
  · exfalso
    obtain ⟨t, ht⟩ := h
    rw [show (metadataMarker ++ Y).drop 3 = '4' :: Y from rfl] at ht
    rw [show metadataMarker ++ t = 'a' :: '2' :: '6' :: '4' :: t from rfl] at ht
    injection ht with h1 _
    exact absurd h1 (by decide)
  · refine (occurs_iff_substring Y metadataMarker).mp ⟨k, ?_⟩
    simpa [metadataMarker] using h

/-- On `X ++ marker ++ Y` with no marker occurrence in `Y`, the last
occurrence starts exactly at `X.length`. -/
theorem rfind_marker_append (X Y : List Char) (hY : ¬ metadataMarker <:+: Y) :
    rfind (X ++ metadataMarker ++ Y) metadataMarker = some X.length := by
  have hocc : metadataMarker <+: (X ++ metadataMarker ++ Y).drop X.length := by
    rw [List.append_assoc, List.drop_left]
    exact ⟨Y, rfl⟩
  cases hr : rfind (X ++ metadataMarker ++ Y) metadataMarker with
  | none => exact absurd hocc (rfind_none_not_occurs metadataMarker _ hr X.length)
  | some k =>
    have hk1 : X.length ≤ k := rfind_max metadataMarker (by decide) _ k hr X.length hocc
    have hk2 : k ≤ X.length := by
      by_contra hgt
      push_neg at hgt
      have ho := rfind_some_occurs _ metadataMarker k hr
      rw [List.append_assoc, List.drop_append_eq_append_drop,
        List.drop_eq_nil_of_le (show X.length ≤ k by omega), List.nil_append] at ho
      exact hY (marker_tail_occurrence Y (k - X.length) (by omega) ho)
    have hk : k = X.length := Nat.le_antisymm hk2 hk1
    rw [hk]

/-- Claim C1 (code bug): the creation-locating step of `main` does not
return typed `NotFound`/`Ambiguous` failures.  With zero matching entries
it prints a warning and then panics on the out-of-bounds index
`create_trace[0]`; with two matching entries it prints a warning and then
silently proceeds with the first candidate. -/
theorem c1_locator_panics_and_proceeds :
    trace_init_step [] 5 = LocateOutcome.panicIndexOutOfBounds ∧
    warning_printed [] 5 = true ∧
    trace_init_step [sampleCreateEntry, sampleCreateEntry] 5
      = LocateOutcome.ok ("6080".toList) ∧
    warning_printed [sampleCreateEntry, sampleCreateEntry] 5 = true := by
  decide

/-- Claim C2 (counterexample): `remove_metadata` is not idempotent.  On
`"a264a264"` one application keeps `"a264"` (everything before the last
marker) and a second application truncates again, to `""`. -/
theorem c2_counterexample_not_idempotent :
    remove_metadata (remove_metadata ("a264a264".toList)) ≠
      remove_metadata ("a264a264".toList) := by
  decide

/-- Claim C2 (amended): `remove_metadata` is idempotent on every bytecode
string in which the marker `"a264"` occurs at most once. -/
theorem c2_idempotent_amended (b : List Char)
    (h : occCount b metadataMarker ≤ 1) :
    remove_metadata (remove_metadata b) = remove_metadata b := by
  cases hr : rfind b metadataMarker with
  | none =>
    have hb : remove_metadata b = b := by simp [remove_metadata, hr]
    rw [hb]
    exact hb
  | some i =>
    have h1 : remove_metadata b = b.take i := by simp [remove_metadata, hr]
    rw [h1]
    cases hr2 : rfind (b.take i) metadataMarker with
    | none => simp [remove_metadata, hr2]
    | some j =>
      exfalso
      have hj := rfind_some_occurs _ metadataMarker j hr2
      obtain ⟨hjb, hji⟩ := occurs_in_take b metadataMarker (by decide) i j hj
      have hib := rfind_some_occurs _ metadataMarker i hr
      have hibound := occurs_add_length_le b metadataMarker (by decide) i hib
      have hm4 : metadataMarker.length = 4 := by decide
      have hne : j ≠ i := by omega
      have hmemj : j ∈ (List.range (b.length + 1)).filter
          (fun k => decide (metadataMarker <+: b.drop k)) := by
        rw [List.mem_filter]
        refine ⟨?_, decide_eq_true hjb⟩
        rw [List.mem_range]
        omega
      have hmemi : i ∈ (List.range (b.length + 1)).filter
          (fun k => decide (metadataMarker <+: b.drop k)) := by
        rw [List.mem_filter]
        refine ⟨?_, decide_eq_true hib⟩
        rw [List.mem_range]
        omega
      have h2 := two_le_length_of_mem_ne hmemj hmemi hne
      rw [occCount] at h
      omega

/-- Witness for C2 (amended) at `"00a264ff"`, which holds one marker. -/
theorem c2_idempotent_amended_witness :
    occCount ("00a264ff".toList) metadataMarker ≤ 1 ∧
    remove_metadata (remove_metadata ("00a264ff".toList)) =
      remove_metadata ("00a264ff".toList) :=
  ⟨by decide, c2_idempotent_amended _ (by decide)⟩

/-- Claim C3 (counterexample): the comparison of `main` is plain string
equality, so the pair `"AA"`/`"aa"`, which differs only in hex-digit case
and is untouched by normalization, is classified `Mismatch`, not `Match`. -/
theorem c3_counterexample_case_sensitive :
    sameHexCaseInsensitive ['A', 'A'] ['a', 'a'] = true ∧
    remove_metadata ['A', 'A'] = ['A', 'A'] ∧
    remove_metadata ['a', 'a'] = ['a', 'a'] ∧
    compare_bytecode ['A', 'A'] ['a', 'a'] = VerificationResult.Mismatch := by
  decide

/-- Claim C3 (amended): the final comparison is exact, case-sensitive
string equality — it classifies `Match` precisely when the two normalized
values are identical. -/
theorem c3_amended_exact_equality (compile_init trace_init : List Char) :
    compare_bytecode compile_init trace_init = VerificationResult.Match ↔
      compile_init = trace_init := by
  by_cases h : compile_init = trace_init
  · simp [compare_bytecode, h]
  · simp [compare_bytecode, h]

/-- Claim C4 (counterexample): the spec's truncation property fails as
stated.  Decompose `b = X ++ marker ++ Y` with `X = ""` (so `X` holds no
marker) and `Y = "a264"`: the code truncates at the last occurrence, so
`remove_metadata b = "a264" ≠ X`. -/
theorem c4_counterexample_last_occurrence :
    ¬ metadataMarker <:+: ([] : List Char) ∧
    remove_metadata (([] : List Char) ++ metadataMarker ++ "a264".toList) ≠
      ([] : List Char) := by
  decide

/-- Claim C4 (amended): truncation correctness holds with the no-marker
side condition on `Y`: if `b = X ++ marker ++ Y` and `Y` holds no marker
occurrence, then `remove_metadata b = X`. -/
theorem c4_truncation_amended (X Y : List Char)
    (hY : ¬ metadataMarker <:+: Y) :
    remove_metadata (X ++ metadataMarker ++ Y) = X := by
  have hr := rfind_marker_append X Y hY
  simp only [remove_metadata, hr]
  rw [List.append_assoc, List.take_left]

/-- Witness for C4 (amended) at `X = "6080"`, `Y = "ff"`. -/
theorem c4_truncation_amended_witness :
    ¬ metadataMarker <:+: "ff".toList ∧
    remove_metadata ("6080".toList ++ metadataMarker ++ "ff".toList) =
      "6080".toList :=
  ⟨by decide, c4_truncation_amended _ _ (by decide)⟩

/-- Claim C5: no-marker invariance — a bytecode string without any
occurrence of `"a264"` is returned unchanged by `remove_metadata`. -/
theorem c5_no_marker_invariance (b : List Char)
    (h : ¬ metadataMarker <:+: b) : remove_metadata b = b := by
  cases hr : rfind b metadataMarker with
  | none => simp [remove_metadata, hr]
  | some i =>
    exact absurd ((occurs_iff_substring b metadataMarker).mp
      ⟨i, rfind_some_occurs b metadataMarker i hr⟩) h

/-- Witness for C5 at `"6080"`. -/
theorem c5_no_marker_invariance_witness :
    ¬ metadataMarker <:+: "6080".toList ∧
    remove_metadata ("6080".toList) = "6080".toList :=
  ⟨by decide, c5_no_marker_invariance _ (by decide)⟩

/-- Claim C6 (counterexample): on a `Mismatch` the program prints only the
fixed message, which does not contain either normalized value; here both
inputs are already normalized. -/
theorem c6_counterexample_no_diagnostic :
    remove_metadata ['f', 'f'] = ['f', 'f'] ∧
    remove_metadata ['0', '0'] = ['0', '0'] ∧
    compare_bytecode ['f', 'f'] ['0', '0'] = VerificationResult.Mismatch ∧
    ¬ ['f', 'f'] <:+: compare_output ['f', 'f'] ['0', '0'] ∧
    ¬ ['0', '0'] <:+: compare_output ['f', 'f'] ['0', '0'] := by
  decide

/-- Claim C6 (amended): on unequal normalized values the comparison step
prints exactly the constant text `"Did not match"`, independent of the two
values. -/
theorem c6_amended_fixed_message (a b : List Char) (h : a ≠ b) :
    compare_output a b = "Did not match".toList := by
  simp [compare_output, h]

/-- Witness for C6 (amended) at `"ff"`/`"00"`. -/
theorem c6_amended_fixed_message_witness :
    (['f', 'f'] : List Char) ≠ ['0', '0'] ∧
    compare_output ['f', 'f'] ['0', '0'] = "Did not match".toList :=
  ⟨by decide, c6_amended_fixed_message _ _ (by decide)⟩

/-- Claim C7 (code bug): on build output that is not valid UTF-8, `main`
panics (modelled by the distinguished `panicInvalidUtf8` outcome) instead
of producing a typed, caller-recoverable error value. -/
theorem c7_invalid_utf8_panics :
    compile_init_step none = CompileInitOutcome.panicInvalidUtf8 := rfl

/-- Claim C8: `remove_metadata` is total and the split position returned
by the marker search is always a valid split point — the occurrence fits
inside the string, and the result is the front segment at that index. -/
theorem c8_total_valid_split (b : List Char) (i : Nat)
    (h : rfind b metadataMarker = some i) :
    i + metadataMarker.length ≤ b.length ∧ remove_metadata b = b.take i := by
  refine ⟨?_, by simp [remove_metadata, h]⟩
  exact occurs_add_length_le b metadataMarker (by decide) i
    (rfind_some_occurs b metadataMarker i h)

/-- Witness for C8 at `"00a264"`, where the marker starts at index 2. -/
theorem c8_total_valid_split_witness :
    rfind ("00a264".toList) metadataMarker = some 2 ∧
    (2 + metadataMarker.length ≤ ("00a264".toList).length ∧
      remove_metadata ("00a264".toList) = ("00a264".toList).take 2) :=
  ⟨by decide, c8_total_valid_split _ 2 (by decide)⟩

/-- Claim C9: normalization only removes a (possibly empty) suffix — the
result of `remove_metadata` is always a front segment of its input. -/
theorem c9_result_is_front_of_input (b : List Char) :
    remove_metadata b <+: b := by
  cases hr : rfind b metadataMarker with
  | none =>
    simp only [remove_metadata, hr]
    exact ⟨[], List.append_nil b⟩
  | some i =>
    simp only [remove_metadata, hr]
    exact List.take_prefix i b

/-- Claim C10: the marker search runs on hex text, not on decoded bytes —
`"aa264000"` is an even-length hex string whose last `"a264"` occurrence
starts at the odd offset 1, so the truncated result has odd length and the
cut is not on a whole-byte boundary. -/
theorem c10_search_on_hex_text :
    ∃ (b : List Char) (i : Nat),
      (∀ c ∈ b, isHexDigit c = true) ∧ b.length % 2 = 0 ∧
      rfind b metadataMarker = some i ∧ i % 2 = 1 ∧
      (remove_metadata b).length % 2 = 1 :=
  ⟨"aa264000".toList, 1, by decide⟩

end Bytematch
